import Mathlib

/-
Verification development for sh-profile (src/script.py): a tool that runs a
command, records timestamped output lines, builds a Firefox-Profiler profile
document, and serves it once over HTTP.

The Python source is shallowly embedded below.  Wall-clock reads
(`time.time()`, `datetime.now()`) become explicit parameters; the subprocess
line stream becomes a list of (datetime, raw line) pairs; the HTTP serving
loop becomes a function over the list of incoming requests.
-/

namespace ShProfile

/-! ## ANSI stripping (`strip_ansi`, src/script.py lines 29-33)

Python: `re.compile(r"\x1B\[\d+(;\d+){0,2}m").sub("", string)`.
`re.sub` scans the original string left to right, removing non-overlapping
matches; the scan resumes after the end of each match.  For this pattern
the greedy quantifiers never need to give characters back (a digit run is
followed by a non-digit, which can never satisfy the `;` or `m` required
next), so a committed greedy parse is an exact model of the regex engine. -/

/-- Longest digit run at the head of the character list, with the rest. -/
def takeDigits : List Char → List Char × List Char
  | [] => ([], [])
  | c :: cs =>
    if c.isDigit then
      let p := takeDigits cs
      (c :: p.1, p.2)
    else ([], c :: cs)

/-- Consume up to `k` occurrences of `; digits+` (the `(;\d+){0,2}` group). -/
def takeGroups : Nat → List Char → List Char
  | 0, r => r
  | k + 1, r =>
    match r with
    | ';' :: rest =>
      match takeDigits rest with
      | ([], _) => r
      | (_ :: _, r1) => takeGroups k r1
    | _ => r

/-- Try to match `\x1B\[\d+(;\d+){0,2}m` at the head of the list; on success
return the characters after the match. -/
def matchAnsiAt (l : List Char) : Option (List Char) :=
  match l with
  | c1 :: c2 :: rest =>
    if c1 == '\x1b' && c2 == '[' then
      match takeDigits rest with
      | ([], _) => none
      | (_ :: _, r1) =>
        match takeGroups 2 r1 with
        | 'm' :: r2 => some r2
        | _ => none
    else none
  | _ => none

/-- One left-to-right pass deleting matches, as `re.sub` does.  The fuel is
the length of the list; every step consumes at least one character, so the
fuel never runs out. -/
def stripGo : Nat → List Char → List Char
  | 0, l => l
  | _ + 1, [] => []
  | fuel + 1, c :: cs =>
    match matchAnsiAt (c :: cs) with
    | some rest => stripGo fuel rest
    | none => c :: stripGo fuel cs

/-- `strip_ansi` from src/script.py lines 29-33. -/
def strip_ansi (s : String) : String :=
  String.mk (stripGo s.data.length s.data)

/-! ## Datetimes and the trace recorder (`run_command`, lines 36-60)

A `datetime` value is modelled by the pieces the program observes:
`timestamp()` (seconds since the epoch, as an exact rational) and the two
`strftime` renderings used in marker payloads. -/

structure Datetime where
  /-- `dt.timestamp()` in seconds. -/
  ts : ℚ
  /-- `dt.strftime("%H:%M:%S")`. -/
  hour : String
  /-- `dt.strftime("%Y-%m-%d")`. -/
  date : String
deriving DecidableEq

/-- `get_timestamp_ms` from src/script.py lines 271-272. -/
def get_timestamp_ms (dt : Datetime) : ℚ :=
  dt.ts * 1000

/-- Python `str.isspace` characters relevant to `str.strip()`. -/
def pyIsSpace (c : Char) : Bool :=
  c == ' ' || c == '\t' || c == '\n' || c == '\r' || c == '\x0b' || c == '\x0c'

/-- Truthiness of `line.strip()`: true iff some character is not whitespace. -/
def pyStripTruthy (s : String) : Bool :=
  !(s.data.all pyIsSpace)

/-- The pure content of `run_command`'s read loop (src/script.py lines 50-60):
each received line is paired with the `datetime.now()` observed at its
arrival; blank lines (falsy after `strip()`) are echoed but not recorded;
recorded lines are ANSI-stripped.  The subprocess itself is external; its
line stream with arrival times is the input. -/
def run_command : List (Datetime × String) → List (Datetime × String)
  | [] => []
  | (dt, line) :: rest =>
    if pyStripTruthy line then (dt, strip_ansi line) :: run_command rest
    else run_command rest

/-! ## String interner (`UniqueStringArray`, src/script.py lines 63-104)

The Python dict `_string_to_index` is modelled as an insertion-ordered
association list with overwrite-in-place semantics (exactly a Python dict's
observable behaviour for these operations). -/

/-- Python `dict.get` for a `str -> int` dict. -/
def dictGet (m : List (String × Nat)) (s : String) : Option Nat :=
  match m with
  | [] => none
  | p :: rest => if p.1 = s then some p.2 else dictGet rest s

/-- Python `dict[k] = v`: overwrite in place, else append. -/
def dictInsert (m : List (String × Nat)) (s : String) (v : Nat) : List (String × Nat) :=
  match m with
  | [] => [(s, v)]
  | p :: rest => if p.1 = s then (p.1, v) :: rest else p :: dictInsert rest s v

/-- The dict comprehension in `__init__`:
`{string: i for i, string in enumerate(original_array)}`. -/
def buildDict (orig : List String) : List (String × Nat) :=
  orig.enum.foldl (fun m p => dictInsert m p.2 p.1) []

structure UniqueStringArray where
  array : List String
  stringToIndex : List (String × Nat)
deriving DecidableEq

/-- `UniqueStringArray.__init__` (src/script.py lines 68-74); called with no
argument it produces the empty interner. -/
def UniqueStringArray.ofList (orig : List String) : UniqueStringArray :=
  { array := orig, stringToIndex := buildDict orig }

/-- `has_index` (src/script.py lines 85-87): `index < len(self._array)`,
with a Python (possibly negative) integer index. -/
def UniqueStringArray.has_index (a : UniqueStringArray) (i : Int) : Bool :=
  decide (i < (a.array.length : Int))

/-- `has_string` (src/script.py lines 89-91). -/
def UniqueStringArray.has_string (a : UniqueStringArray) (s : String) : Bool :=
  (dictGet a.stringToIndex s).isSome

/-- Python list subscription `l[i]` with negative-index wraparound;
`none` models an `IndexError`. -/
def pyGetElem (l : List String) (i : Int) : Option String :=
  if 0 ≤ i then l.get? i.toNat
  else if 0 ≤ i + (l.length : Int) then l.get? (i + (l.length : Int)).toNat
  else none

/-- `get_string` (src/script.py lines 76-83).  `els` is the optional
fallback; `if els:` is a truthiness test, so `None` and `""` both lead to
the raise.  Errors are modelled by `Except.error` carrying the message. -/
def UniqueStringArray.get_string (a : UniqueStringArray) (i : Int)
    (els : Option String) : Except String String :=
  if a.has_index i then
    match pyGetElem a.array i with
    | some s => Except.ok s
    | none => Except.error "IndexError"
  else
    match els with
    | some e =>
      if e ≠ "" then Except.ok e
      else Except.error ("index " ++ toString i ++ " not in UniqueStringArray")
    | none => Except.error ("index " ++ toString i ++ " not in UniqueStringArray")

/-- `index_for_string` (src/script.py lines 93-100): return the existing
index, else append and record the new one.  The mutation is modelled by
returning the updated interner. -/
def UniqueStringArray.index_for_string (a : UniqueStringArray) (s : String) :
    Nat × UniqueStringArray :=
  match dictGet a.stringToIndex s with
  | some i => (i, a)
  | none =>
    (a.array.length,
      { array := a.array ++ [s],
        stringToIndex := dictInsert a.stringToIndex s a.array.length })

/-- `serialize_to_array` (src/script.py lines 102-104). -/
def UniqueStringArray.serialize_to_array (a : UniqueStringArray) : List String :=
  a.array

/-- Interning a whole list in order, threading the interner state; returns
the indices produced.  (Used to state properties of repeated
`index_for_string` calls.) -/
def internAll : UniqueStringArray → List String → List Nat × UniqueStringArray
  | a, [] => ([], a)
  | a, s :: ss =>
    let r := a.index_for_string s
    let q := internAll r.2 ss
    (r.1 :: q.1, q.2)

/-! ## Profile data model (src/script.py lines 107-268)

Only the fields the program writes or the spec constrains are carried;
each record mirrors the corresponding dict literal in the source. -/

structure Category where
  name : String
  color : String
  subcategories : List String
deriving DecidableEq

/-- `get_categories` (src/script.py lines 138-149). -/
def get_categories : List Category :=
  [{ name := "sh-profile", color := "lightblue", subcategories := ["Other"] }]

structure Meta where
  interval : ℚ
  startTime : ℚ
  categories : List Category
  product : String
  version : Nat
  preprocessedProfileVersion : Nat
deriving DecidableEq

structure MarkerData where
  type : String
  name : String
  line : String
  hour : String
  date : String
deriving DecidableEq

structure MarkerTable where
  data : List MarkerData
  name : List Nat
  startTime : List ℚ
  endTime : List (Option ℚ)
  phase : List Nat
  category : List Nat
  length : Nat
deriving DecidableEq

structure Thread where
  name : String
  isMainThread : Bool
  pid : String
  tid : Nat
  markers : MarkerTable
  stringArray : List String
deriving DecidableEq

structure Profile where
  meta : Meta
  libs : List String
  pages : List String
  threads : List Thread
deriving DecidableEq

/-- `get_empty_profile` (src/script.py lines 107-135).  `now_ms` is the
`time.time() * 1000.0` read at creation. -/
def get_empty_profile (now_ms : ℚ) : Profile :=
  { meta :=
      { interval := 1, startTime := now_ms, categories := get_categories,
        product := "sh-profile", version := 29, preprocessedProfileVersion := 48 },
    libs := [], pages := [], threads := [] }

/-- `get_empty_thread` (src/script.py lines 152-222), restricted to the
fields carried by `Thread`; the marker table starts with six empty columns
and `length = 0`. -/
def get_empty_thread : Thread :=
  { name := "Empty", isMainThread := true, pid := "0", tid := 0,
    markers :=
      { data := [], name := [], startTime := [], endTime := [], phase := [],
        category := [], length := 0 },
    stringArray := [] }

/-! ## Profile builder (`build_profile`, src/script.py lines 275-328) -/

/-- The local `profile_start_time` of `build_profile`: `0.0`, overwritten
with the first event's millisecond timestamp when the buffer is non-empty. -/
def profile_start_time_of (buffer : List (Datetime × String)) : ℚ :=
  match buffer with
  | [] => 0
  | (dt, _) :: _ => get_timestamp_ms dt

/-- The `for dt, line in buffer` loop of `build_profile` (src/script.py
lines 299-324): appends one row to every marker column per event and
increments `length`, threading the interner. -/
def addMarkers (pst : ℚ) (catIdx : Nat) :
    List (Datetime × String) → MarkerTable → UniqueStringArray →
    MarkerTable × UniqueStringArray
  | [], m, sa => (m, sa)
  | (dt, line) :: rest, m, sa =>
    let run_start := get_timestamp_ms dt
    let r := sa.index_for_string "sh-profile"
    addMarkers pst catIdx rest
      { startTime := m.startTime ++ [run_start - pst],
        endTime := m.endTime ++ [none],
        phase := m.phase ++ [0],
        category := m.category ++ [catIdx],
        name := m.name ++ [r.1],
        data := m.data ++
          [{ type := "sh-profile", name := "sh-profile", line := line,
             hour := dt.hour, date := dt.date }],
        length := m.length + 1 }
      r.2

/-- The `category_index_dict` comprehension of `build_profile`
(src/script.py lines 292-295). -/
def category_index_dict (cats : List Category) : List (String × Nat) :=
  cats.enum.foldl (fun m p => dictInsert m p.2.name p.1) []

/-- `build_profile` (src/script.py lines 275-328).  `now_ms` is the wall
clock read by `get_empty_profile` when the empty profile is created. -/
def build_profile (now_ms : ℚ) (buffer : List (Datetime × String)) : Profile :=
  let profile := get_empty_profile now_ms
  let pst := profile_start_time_of buffer
  let meta1 :=
    match buffer with
    | [] => profile.meta
    | _ :: _ => { profile.meta with startTime := pst }
  let thread0 := { get_empty_thread with name := "sh-profile", isMainThread := true }
  let catIdx := (dictGet (category_index_dict profile.meta.categories) "sh-profile").getD 0
  let res := addMarkers pst catIdx buffer thread0.markers (UniqueStringArray.ofList [])
  { profile with
      meta := meta1,
      threads :=
        [{ thread0 with markers := res.1, stringArray := res.2.serialize_to_array }] }

/-- The marker table of the (single) thread of a built profile. -/
def markersOf (p : Profile) : MarkerTable :=
  match p.threads with
  | [] => get_empty_thread.markers
  | t :: _ => t.markers

/-! ## Publication server (src/script.py lines 331-379)

`open_profile` runs `while waiting_for_request: server.handle_request()`.
`do_GET` sets `waiting_for_request = False` (even when writing the body
fails — the exception is caught); `do_HEAD` only sends headers and leaves
the flag untouched.  The incoming requests are modelled as a list; the
serve loop answers requests while the flag is up and returns how many
requests it answered. -/

inductive Method
  | get
  | head
deriving DecidableEq

structure Request where
  method : Method
  /-- Whether `self.wfile.write` raises while answering this request;
  only a `GET` writes a body. -/
  writeFails : Bool
deriving DecidableEq

/-- Effect of one handled request on the `waiting_for_request` flag
(`ServeFile.do_GET` / `ServeFile.do_HEAD`, src/script.py lines 367-379).
A write failure in `do_GET` is caught and still clears the flag. -/
def handle_request (waiting : Bool) (r : Request) : Bool :=
  match r.method with
  | Method.head => waiting
  | Method.get => false

/-- The serving loop of `open_profile` (src/script.py lines 350-351) run
against a queue of incoming requests: the number of requests it answers
before the loop exits (requests after the exit are never answered). -/
def serve_loop : Bool → List Request → Nat
  | _, [] => 0
  | w, r :: rs => if w then 1 + serve_loop (handle_request w r) rs else 0

/-! ## CLI entry (`main`, src/script.py lines 389-411)

`args.command` is the positional remainder list.  The observable
pre-execution behaviour of `main` is modelled: what is printed where,
the exit code, and whether a subprocess is spawned. -/

inductive OutChannel
  | stdout
  | stderr
deriving DecidableEq

/-- The text produced by `parser.print_help()`.  Its content is generated
by the external `argparse` library; only its destination matters here. -/
def help_text : String :=
  "usage: sh-profile ... Run a command and buffer output with timestamps."

structure MainPre where
  prints : List (OutChannel × String)
  exitCode : Option Nat
  spawns : Bool
deriving DecidableEq

/-- The pre-execution part of `main` (src/script.py lines 398-409):
`parser.print_help()` writes to standard output (argparse's default
stream); only the `No --` message goes to standard error.  `spawns` is
whether control reaches `run_command`. -/
def main_pre (command : List String) : MainPre :=
  match command with
  | [] => { prints := [(OutChannel.stdout, help_text)], exitCode := some 1, spawns := false }
  | c :: _ =>
    if c = "--" then { prints := [], exitCode := none, spawns := true }
    else
      { prints :=
          [(OutChannel.stderr, "No -- was found at the start of the command"),
           (OutChannel.stdout, help_text)],
        exitCode := some 1, spawns := false }

/-! ## Lemmas about the marker-appending loop -/

theorem addMarkers_startTime (pst : ℚ) (ci : Nat) :
    ∀ (l : List (Datetime × String)) (m : MarkerTable) (sa : UniqueStringArray),
      (addMarkers pst ci l m sa).1.startTime
        = m.startTime ++ l.map (fun e => get_timestamp_ms e.1 - pst) := by
  intro l
  induction l with
  | nil => intro m sa; simp [addMarkers]
  | cons e rest ih =>
    intro m sa
    obtain ⟨dt, line⟩ := e
    simp [addMarkers, ih, List.append_assoc]

theorem addMarkers_endTime (pst : ℚ) (ci : Nat) :
    ∀ (l : List (Datetime × String)) (m : MarkerTable) (sa : UniqueStringArray),
      (addMarkers pst ci l m sa).1.endTime
        = m.endTime ++ l.map (fun _ => (none : Option ℚ)) := by
  intro l
  induction l with
  | nil => intro m sa; simp [addMarkers]
  | cons e rest ih =>
    intro m sa
    obtain ⟨dt, line⟩ := e
    simp [addMarkers, ih, List.append_assoc]

theorem addMarkers_phase (pst : ℚ) (ci : Nat) :
    ∀ (l : List (Datetime × String)) (m : MarkerTable) (sa : UniqueStringArray),
      (addMarkers pst ci l m sa).1.phase = m.phase ++ l.map (fun _ => 0) := by
  intro l
  induction l with
  | nil => intro m sa; simp [addMarkers]
  | cons e rest ih =>
    intro m sa
    obtain ⟨dt, line⟩ := e
    simp [addMarkers, ih, List.append_assoc]

theorem addMarkers_category (pst : ℚ) (ci : Nat) :
    ∀ (l : List (Datetime × String)) (m : MarkerTable) (sa : UniqueStringArray),
      (addMarkers pst ci l m sa).1.category = m.category ++ l.map (fun _ => ci) := by
  intro l
  induction l with
  | nil => intro m sa; simp [addMarkers]
  | cons e rest ih =>
    intro m sa
    obtain ⟨dt, line⟩ := e
    simp [addMarkers, ih, List.append_assoc]

theorem addMarkers_name_length (pst : ℚ) (ci : Nat) :
    ∀ (l : List (Datetime × String)) (m : MarkerTable) (sa : UniqueStringArray),
      (addMarkers pst ci l m sa).1.name.length = m.name.length + l.length := by
  intro l
  induction l with
  | nil => intro m sa; simp [addMarkers]
  | cons e rest ih =>
    intro m sa
    obtain ⟨dt, line⟩ := e
    simp [addMarkers, ih]
    omega

theorem addMarkers_data (pst : ℚ) (ci : Nat) :
    ∀ (l : List (Datetime × String)) (m : MarkerTable) (sa : UniqueStringArray),
      (addMarkers pst ci l m sa).1.data
        = m.data ++ l.map (fun e =>
            { type := "sh-profile", name := "sh-profile", line := e.2,
              hour := e.1.hour, date := e.1.date }) := by
  intro l
  induction l with
  | nil => intro m sa; simp [addMarkers]
  | cons e rest ih =>
    intro m sa
    obtain ⟨dt, line⟩ := e
    simp [addMarkers, ih, List.append_assoc]

theorem addMarkers_length (pst : ℚ) (ci : Nat) :
    ∀ (l : List (Datetime × String)) (m : MarkerTable) (sa : UniqueStringArray),
      (addMarkers pst ci l m sa).1.length = m.length + l.length := by
  intro l
  induction l with
  | nil => intro m sa; simp [addMarkers]
  | cons e rest ih =>
    intro m sa
    obtain ⟨dt, line⟩ := e
    simp [addMarkers, ih]
    omega

theorem markersOf_build_profile (now_ms : ℚ) (buffer : List (Datetime × String)) :
    markersOf (build_profile now_ms buffer)
      = (addMarkers (profile_start_time_of buffer) 0 buffer
          get_empty_thread.markers (UniqueStringArray.ofList [])).1 := by
  cases buffer with
  | nil => rfl
  | cons e rest => rfl

theorem build_profile_meta_startTime (now_ms : ℚ) :
    ∀ buffer : List (Datetime × String),
      (build_profile now_ms buffer).meta.startTime
        = match buffer with
          | [] => now_ms
          | e :: _ => get_timestamp_ms e.1 := by
  intro buffer
  cases buffer with
  | nil => rfl
  | cons e rest => rfl

/-! ## Claim theorems -/

/-- Claim C1: for every sequence of LineEvents given to `build_profile`,
the resulting profile's marker table has `startTime`, `endTime`, `phase`,
`category`, `name` and `data` sequences of identical length, and the
table's `length` field equals that common length. -/
theorem c1_marker_columns_equal_length (now_ms : ℚ)
    (buffer : List (Datetime × String)) :
    (markersOf (build_profile now_ms buffer)).startTime.length
        = (markersOf (build_profile now_ms buffer)).length ∧
      (markersOf (build_profile now_ms buffer)).endTime.length
        = (markersOf (build_profile now_ms buffer)).length ∧
      (markersOf (build_profile now_ms buffer)).phase.length
        = (markersOf (build_profile now_ms buffer)).length ∧
      (markersOf (build_profile now_ms buffer)).category.length
        = (markersOf (build_profile now_ms buffer)).length ∧
      (markersOf (build_profile now_ms buffer)).name.length
        = (markersOf (build_profile now_ms buffer)).length ∧
      (markersOf (build_profile now_ms buffer)).data.length
        = (markersOf (build_profile now_ms buffer)).length := by
  rw [markersOf_build_profile]
  simp [addMarkers_startTime, addMarkers_endTime, addMarkers_phase,
    addMarkers_category, addMarkers_name_length, addMarkers_data,
    addMarkers_length, get_empty_thread]

/-- Claim C3: for every non-empty LineEvent sequence, the built profile's
`meta.startTime` equals the first event's absolute timestamp in
milliseconds and the first marker's relative `startTime` equals 0; for the
empty sequence, `meta.startTime` keeps the wall-clock value set when the
empty profile was created. -/
theorem c3_start_time (now_ms : ℚ) (buffer : List (Datetime × String)) :
    (∀ e rest, buffer = e :: rest →
        (build_profile now_ms buffer).meta.startTime = get_timestamp_ms e.1 ∧
        (markersOf (build_profile now_ms buffer)).startTime.head? = some 0) ∧
      (buffer = [] → (build_profile now_ms buffer).meta.startTime = now_ms) := by
  constructor
  · intro e rest hb
    subst hb
    refine ⟨by rw [build_profile_meta_startTime], ?_⟩
    rw [markersOf_build_profile, addMarkers_startTime]
    simp [get_empty_thread, profile_start_time_of]
  · intro hb
    subst hb
    rw [build_profile_meta_startTime]

/-- Claim C3 witness: the theorem instantiated at a concrete one-event
buffer and at the empty buffer. -/
theorem c3_start_time_witness :
    (build_profile 7 [(⟨3, "", ""⟩, "x")]).meta.startTime = 3000 ∧
      (markersOf (build_profile 7 [(⟨3, "", ""⟩, "x")])).startTime.head? = some 0 ∧
      (build_profile 7 []).meta.startTime = 7 := by
  have h1 := (c3_start_time 7 [(⟨3, "", ""⟩, "x")]).1 (⟨3, "", ""⟩, "x") [] rfl
  have h2 := (c3_start_time 7 []).2 rfl
  refine ⟨?_, h1.2, h2⟩
  rw [h1.1]
  norm_num [get_timestamp_ms]

/-- Claim C9: for every LineEvent sequence whose timestamps are
non-decreasing, the relative `startTime` values in the built marker table
are monotonically non-decreasing, and they appear in input order: the
column is exactly the input timestamps shifted by the profile start time. -/
theorem c9_start_times_monotone (now_ms : ℚ) (buffer : List (Datetime × String))
    (h : List.Chain' (· ≤ ·) (buffer.map (fun e => get_timestamp_ms e.1))) :
    (markersOf (build_profile now_ms buffer)).startTime
        = buffer.map (fun e => get_timestamp_ms e.1 - profile_start_time_of buffer) ∧
      List.Chain' (· ≤ ·) ((markersOf (build_profile now_ms buffer)).startTime) := by
  have hcol : (markersOf (build_profile now_ms buffer)).startTime
      = buffer.map (fun e => get_timestamp_ms e.1 - profile_start_time_of buffer) := by
    rw [markersOf_build_profile, addMarkers_startTime]
    simp [get_empty_thread]
  refine ⟨hcol, ?_⟩
  rw [hcol]
  rw [List.chain'_map] at h ⊢
  exact h.imp (fun a b hab => sub_le_sub_right hab _)

/-- Claim C9 witness: the theorem instantiated at a concrete two-event
non-decreasing buffer. -/
theorem c9_start_times_monotone_witness :
    (markersOf (build_profile 0 [(⟨3, "", ""⟩, "x"), (⟨5, "", ""⟩, "y")])).startTime
        = [0, 2000] ∧
      List.Chain' (· ≤ ·)
        ((markersOf (build_profile 0 [(⟨3, "", ""⟩, "x"), (⟨5, "", ""⟩, "y")])).startTime) := by
  have h := c9_start_times_monotone 0 [(⟨3, "", ""⟩, "x"), (⟨5, "", ""⟩, "y")]
    (by norm_num [get_timestamp_ms])
  refine ⟨?_, h.2⟩
  rw [h.1]
  norm_num [get_timestamp_ms, profile_start_time_of]

/-- Claim C4 counterexample: with lines `"a\n"`, `""`, `"b\n"` arriving at
timestamps 0 < 1 < 2, the recorded line texts keep their trailing newline,
so the `data.line` values are `"a\n"` and `"b\n"`, not `"a"` and `"b"` as
the claim states. -/
theorem c4_counterexample :
    ¬ ((markersOf (build_profile 0 (run_command
          [(⟨0, "", ""⟩, "a\n"), (⟨1, "", ""⟩, ""), (⟨2, "", ""⟩, "b\n")]))).data.map
        (fun d => d.line) = ["a", "b"]) := by
  decide

/-- Claim C4 (amended): when the command emits the lines `"a\n"`, `""`,
`"b\n"` at strictly increasing timestamps, the built marker table contains
exactly 2 markers, whose `data.line` values are `"a\n"` then `"b\n"` (the
trailing newline is not removed from the recorded text), and the first
marker's relative `startTime` equals 0. -/
theorem c4_two_markers (now_ms : ℚ) (d0 d1 d2 : Datetime)
    (h01 : d0.ts < d1.ts) (h12 : d1.ts < d2.ts) :
    (markersOf (build_profile now_ms (run_command
          [(d0, "a\n"), (d1, ""), (d2, "b\n")]))).length = 2 ∧
      (markersOf (build_profile now_ms (run_command
          [(d0, "a\n"), (d1, ""), (d2, "b\n")]))).data.map (fun d => d.line)
        = ["a\n", "b\n"] ∧
      (markersOf (build_profile now_ms (run_command
          [(d0, "a\n"), (d1, ""), (d2, "b\n")]))).startTime.head? = some 0 := by
  have hrc : run_command [(d0, "a\n"), (d1, ""), (d2, "b\n")]
      = [(d0, "a\n"), (d2, "b\n")] := by
    simp [run_command, show pyStripTruthy "a\n" = true from rfl,
      show pyStripTruthy "" = false from rfl,
      show pyStripTruthy "b\n" = true from rfl,
      show strip_ansi "a\n" = "a\n" from rfl,
      show strip_ansi "b\n" = "b\n" from rfl]
  rw [hrc]
  refine ⟨?_, ?_, ?_⟩
  · rw [markersOf_build_profile, addMarkers_length]
    simp [get_empty_thread]
  · rw [markersOf_build_profile, addMarkers_data]
    simp [get_empty_thread]
  · rw [markersOf_build_profile, addMarkers_startTime]
    simp [get_empty_thread, profile_start_time_of]

/-- Claim C4 witness: the amended theorem instantiated at timestamps
0 < 1 < 2. -/
theorem c4_two_markers_witness :
    (markersOf (build_profile 0 (run_command
          [(⟨0, "", ""⟩, "a\n"), (⟨1, "", ""⟩, ""), (⟨2, "", ""⟩, "b\n")]))).length = 2 ∧
      (markersOf (build_profile 0 (run_command
          [(⟨0, "", ""⟩, "a\n"), (⟨1, "", ""⟩, ""), (⟨2, "", ""⟩, "b\n")]))).data.map
        (fun d => d.line) = ["a\n", "b\n"] ∧
      (markersOf (build_profile 0 (run_command
          [(⟨0, "", ""⟩, "a\n"), (⟨1, "", ""⟩, ""), (⟨2, "", ""⟩, "b\n")]))).startTime.head?
        = some 0 :=
  c4_two_markers 0 ⟨0, "", ""⟩ ⟨1, "", ""⟩ ⟨2, "", ""⟩ (by norm_num) (by norm_num)

/-! ## Serving-loop lemmas -/

theorem serve_loop_not_waiting (rs : List Request) : serve_loop false rs = 0 := by
  cases rs <;> simp [serve_loop]

/-- Claim C2 counterexample: two HEAD requests are both answered — after
the first HEAD completes the loop keeps running (`do_HEAD` never clears
`waiting_for_request`), so the server does answer a second request. -/
theorem c2_counterexample :
    ¬ (serve_loop true [⟨Method.head, false⟩, ⟨Method.head, false⟩] ≤ 1) := by
  decide

/-- Claim C2 (amended): the serving loop terminates right after the first
GET request completes — successfully or with a response-write failure —
and so answers at most one GET; HEAD requests do not clear
`waiting_for_request`, so any number of HEAD requests may be answered
before the first GET.  The number of answered requests is the prefix of
HEAD requests plus the first GET, capped by the queue length. -/
theorem c2_serve_loop_stops_after_get (rs : List Request) :
    serve_loop true rs
        = min rs.length
            ((rs.takeWhile (fun r => r.method == Method.head)).length + 1) ∧
      (rs.take (serve_loop true rs)).countP (fun r => r.method == Method.get) ≤ 1 := by
  induction rs with
  | nil => simp [serve_loop]
  | cons r rs ih =>
    cases hm : r.method with
    | get =>
      have h1 : serve_loop true (r :: rs) = 1 := by
        simp [serve_loop, handle_request, hm, serve_loop_not_waiting]
      constructor
      · rw [h1]
        simp [List.takeWhile_cons, hm]
      · rw [h1]
        simp [List.countP_cons, hm]
    | head =>
      have h1 : serve_loop true (r :: rs) = 1 + serve_loop true rs := by
        simp [serve_loop, handle_request, hm]
      constructor
      · rw [h1, ih.1]
        simp [List.takeWhile_cons, hm]
        omega
      · rw [h1, Nat.add_comm]
        simpa [List.countP_cons, hm] using ih.2

/-! ## ANSI-stripping lemmas -/

theorem matchAnsiAt_of_ne_esc : ∀ {l : List Char},
    l.head? ≠ some '\x1b' → matchAnsiAt l = none := by
  intro l h
  match l with
  | [] => rfl
  | [c] => rfl
  | c1 :: c2 :: rest =>
    have hc : ¬ c1 = '\x1b' := by simpa using h
    simp [matchAnsiAt, hc]

theorem stripGo_of_noEsc :
    ∀ (fuel : Nat) (l : List Char), '\x1b' ∉ l → l.length ≤ fuel →
      stripGo fuel l = l := by
  intro fuel
  induction fuel with
  | zero => intro l h hl; rfl
  | succ f ih =>
    intro l h hl
    cases l with
    | nil => rfl
    | cons c cs =>
      have hc : c ≠ '\x1b' := by
        intro hc
        exact h (hc ▸ List.mem_cons_self c cs)
      have hm : matchAnsiAt (c :: cs) = none := by
        apply matchAnsiAt_of_ne_esc
        simpa using hc
      have hcs : '\x1b' ∉ cs := fun hmem => h (List.mem_cons_of_mem _ hmem)
      simp [stripGo, hm]
      exact ih cs hcs (by simpa using Nat.le_of_succ_le_succ hl)

theorem strip_ansi_of_noEsc (s : String) (h : '\x1b' ∉ s.data) :
    strip_ansi s = s := by
  unfold strip_ansi
  rw [stripGo_of_noEsc _ _ h le_rfl]

/-- Claim C6 counterexample: stripping `"\x1B[3\x1B[1m1m"` removes the
inner `"\x1B[1m"` and splices the remaining characters into the new escape
sequence `"\x1B[31m"`, which a second stripping pass removes — so
`strip_ansi` is not idempotent. -/
theorem c6_counterexample :
    ¬ (strip_ansi (strip_ansi "\x1B[3\x1B[1m1m")
        = strip_ansi "\x1B[3\x1B[1m1m") := by
  decide

/-- Claim C6 (amended): `strip_ansi` is the identity on strings containing
no ESC character, hence it is idempotent at every string whose stripped
form contains no ESC character (but not in general, since removing a match
can splice together a new escape sequence); and
`strip_ansi "\x1B[31mHELLO\x1B[0m"` equals `"HELLO"`. -/
theorem c6_strip_ansi_props :
    (∀ s : String, '\x1b' ∉ s.data → strip_ansi s = s) ∧
      (∀ s : String, '\x1b' ∉ (strip_ansi s).data →
        strip_ansi (strip_ansi s) = strip_ansi s) ∧
      strip_ansi "\x1B[31mHELLO\x1B[0m" = "HELLO" :=
  ⟨fun s h => strip_ansi_of_noEsc s h,
   fun s h => strip_ansi_of_noEsc (strip_ansi s) h,
   by decide⟩

/-- Claim C6 witness: the amended theorem applied at `"HELLO"` and at the
concrete coloured string. -/
theorem c6_strip_ansi_props_witness :
    strip_ansi "HELLO" = "HELLO" ∧
      strip_ansi (strip_ansi "HELLO") = strip_ansi "HELLO" := by
  refine ⟨c6_strip_ansi_props.1 "HELLO" (by decide), ?_⟩
  exact c6_strip_ansi_props.2.1 "HELLO" (by decide)

/-- Claim C7 counterexample: with an empty positional list, `main` prints
the help text to standard output only — nothing is written to standard
error, so the claim that the help text goes to standard error fails. -/
theorem c7_counterexample :
    ¬ ((OutChannel.stderr, help_text) ∈ (main_pre []).prints) := by
  decide

/-- Claim C7 (amended): when the positional argument list is empty or its
first element is not `"--"`, the program prints the help text to standard
output (argparse's `print_help` default stream; in the missing-`--` case an
additional error line goes to standard error) and exits with status 1
before any subprocess is spawned. -/
theorem c7_usage_error (command : List String)
    (h : command = [] ∨ ∃ c rest, command = c :: rest ∧ c ≠ "--") :
    (OutChannel.stdout, help_text) ∈ (main_pre command).prints ∧
      (main_pre command).exitCode = some 1 ∧
      (main_pre command).spawns = false := by
  rcases h with h | ⟨c, rest, hcr, hne⟩
  · subst h
    simp [main_pre]
  · subst hcr
    simp [main_pre, hne]

/-- Claim C7 witness: the amended theorem at the empty list and at a list
not starting with `"--"`. -/
theorem c7_usage_error_witness :
    ((OutChannel.stdout, help_text) ∈ (main_pre []).prints ∧
        (main_pre []).exitCode = some 1 ∧ (main_pre []).spawns = false) ∧
      ((OutChannel.stdout, help_text) ∈ (main_pre ["x"]).prints ∧
        (main_pre ["x"]).exitCode = some 1 ∧ (main_pre ["x"]).spawns = false) :=
  ⟨c7_usage_error [] (Or.inl rfl),
   c7_usage_error ["x"] (Or.inr ⟨"x", [], rfl, by decide⟩)⟩

/-! ## Interner lemmas

The key invariant tying the two fields of `UniqueStringArray` together:
the dict maps every string to the position of its first occurrence in
`_array`. -/

/-- Position of the first occurrence of `s` in `l`, if any. -/
def firstIndexOf (l : List String) (s : String) : Option Nat :=
  match l with
  | [] => none
  | x :: xs => if x = s then some 0 else (firstIndexOf xs s).map (· + 1)

/-- `_string_to_index` agrees with first-occurrence positions in `_array`. -/
def SAInv (a : UniqueStringArray) : Prop :=
  ∀ s, dictGet a.stringToIndex s = firstIndexOf a.array s

theorem dictGet_dictInsert_self (m : List (String × Nat)) (s : String) (v : Nat) :
    dictGet (dictInsert m s v) s = some v := by
  induction m with
  | nil => simp [dictGet, dictInsert]
  | cons p rest ih =>
    by_cases h : p.1 = s
    · simp [dictInsert, h, dictGet]
    · simp [dictInsert, h, dictGet, ih]

theorem dictGet_dictInsert_other (m : List (String × Nat)) (s t : String) (v : Nat)
    (h : t ≠ s) : dictGet (dictInsert m s v) t = dictGet m t := by
  induction m with
  | nil => simp [dictGet, dictInsert, Ne.symm h]
  | cons p rest ih =>
    by_cases hp : p.1 = s
    · simp [dictInsert, hp, dictGet, Ne.symm h]
    · simp [dictInsert, hp, dictGet, ih]

theorem firstIndexOf_eq_none_iff (l : List String) (s : String) :
    firstIndexOf l s = none ↔ s ∉ l := by
  induction l with
  | nil => simp [firstIndexOf]
  | cons x xs ih =>
    by_cases hx : x = s
    · simp [firstIndexOf, hx]
    · simp [firstIndexOf, hx, Option.map_eq_none', ih, Ne.symm hx]

theorem firstIndexOf_append_some {l : List String} {s : String} {k : Nat}
    (h : firstIndexOf l s = some k) (l' : List String) :
    firstIndexOf (l ++ l') s = some k := by
  induction l generalizing k with
  | nil => simp [firstIndexOf] at h
  | cons x xs ih =>
    by_cases hx : x = s
    · simp [firstIndexOf, hx] at h ⊢
      exact h
    · simp [firstIndexOf, hx] at h ⊢
      obtain ⟨j, hj, hjk⟩ := h
      exact ⟨j, ih hj, hjk⟩

theorem firstIndexOf_append_none {l : List String} {s : String}
    (h : firstIndexOf l s = none) (l' : List String) :
    firstIndexOf (l ++ l') s = (firstIndexOf l' s).map (· + l.length) := by
  induction l with
  | nil => simp
  | cons x xs ih =>
    by_cases hx : x = s
    · simp [firstIndexOf, hx] at h
    · simp [firstIndexOf, hx, Option.map_eq_none'] at h
      have := ih h
      simp [firstIndexOf, hx, this, Option.map_map]

theorem index_for_string_found {a : UniqueStringArray} {s : String} {k : Nat}
    (hInv : SAInv a) (h : firstIndexOf a.array s = some k) :
    a.index_for_string s = (k, a) := by
  simp [UniqueStringArray.index_for_string, hInv s, h]

theorem index_for_string_new {a : UniqueStringArray} {s : String}
    (hInv : SAInv a) (h : firstIndexOf a.array s = none) :
    (a.index_for_string s).1 = a.array.length ∧
      (a.index_for_string s).2.array = a.array ++ [s] ∧
      SAInv (a.index_for_string s).2 := by
  have hd : dictGet a.stringToIndex s = none := (hInv s).trans h
  refine ⟨by simp [UniqueStringArray.index_for_string, hd],
    by simp [UniqueStringArray.index_for_string, hd], ?_⟩
  intro t
  simp only [UniqueStringArray.index_for_string, hd]
  by_cases ht : t = s
  · subst ht
    rw [dictGet_dictInsert_self, firstIndexOf_append_none h]
    simp [firstIndexOf]
  · rw [dictGet_dictInsert_other _ _ _ _ ht, hInv t]
    cases hk : firstIndexOf a.array t with
    | some k => rw [firstIndexOf_append_some hk]
    | none =>
      rw [firstIndexOf_append_none hk]
      simp [firstIndexOf, Ne.symm ht]

theorem internAll_fresh_distinct :
    ∀ (ss : List String) (a : UniqueStringArray), SAInv a → ss.Nodup →
      (∀ s ∈ ss, s ∉ a.array) →
      (internAll a ss).1 = List.range' a.array.length ss.length ∧
        (internAll a ss).2.array = a.array ++ ss ∧
        SAInv (internAll a ss).2 := by
  intro ss
  induction ss with
  | nil =>
    intro a hInv _ _
    exact ⟨by simp [internAll], by simp [internAll], hInv⟩
  | cons s ss ih =>
    intro a hInv hnd hmem
    have hnone : firstIndexOf a.array s = none :=
      (firstIndexOf_eq_none_iff _ _).2 (hmem s (List.mem_cons_self _ _))
    obtain ⟨hfst, harr, hInv2⟩ := index_for_string_new hInv hnone
    have hmem2 : ∀ t ∈ ss, t ∉ (a.index_for_string s).2.array := by
      intro t ht
      rw [harr]
      simp only [List.mem_append, List.mem_singleton]
      rintro (h | h)
      · exact hmem t (List.mem_cons_of_mem _ ht) h
      · exact ((List.nodup_cons.1 hnd).1 (h ▸ ht))
    have hlen2 : (a.index_for_string s).2.array.length = a.array.length + 1 := by
      rw [harr]; simp
    obtain ⟨ih1, ih2, ih3⟩ := ih (a.index_for_string s).2 hInv2 (List.nodup_cons.1 hnd).2 hmem2
    refine ⟨?_, ?_, ?_⟩
    · simp only [internAll, ih1, hlen2, hfst, List.length_cons]
      rw [List.range'_succ]
    · simp only [internAll, ih2, harr]
      simp
    · simp only [internAll]
      exact ih3

theorem firstIndexOf_isSome_mem {l : List String} {s : String} {k : Nat}
    (h : firstIndexOf l s = some k) : s ∈ l := by
  by_contra hmem
  rw [(firstIndexOf_eq_none_iff _ _).2 hmem] at h
  exact Option.noConfusion h

theorem internAll_toFinset :
    ∀ (ss : List String) (a : UniqueStringArray), SAInv a →
      SAInv (internAll a ss).2 ∧
        (internAll a ss).2.array.toFinset = a.array.toFinset ∪ ss.toFinset ∧
        (a.array.Nodup → (internAll a ss).2.array.Nodup) := by
  intro ss
  induction ss with
  | nil => intro a hInv; simp [internAll, hInv]
  | cons s ss ih =>
    intro a hInv
    cases hk : firstIndexOf a.array s with
    | some k =>
      have hstep := index_for_string_found hInv hk
      have hsmem : s ∈ a.array.toFinset := List.mem_toFinset.2 (firstIndexOf_isSome_mem hk)
      obtain ⟨ih1, ih2, ih3⟩ := ih a hInv
      refine ⟨?_, ?_, ?_⟩
      · simp only [internAll, hstep]
        exact ih1
      · simp only [internAll, hstep, ih2, List.toFinset_cons]
        rw [Finset.union_insert, Finset.insert_eq_self.2 (Finset.mem_union_left _ hsmem)]
      · simp only [internAll, hstep]
        exact ih3
    | none =>
      obtain ⟨hfst, harr, hInv2⟩ := index_for_string_new hInv hk
      obtain ⟨ih1, ih2, ih3⟩ := ih (a.index_for_string s).2 hInv2
      refine ⟨?_, ?_, ?_⟩
      · simp only [internAll]
        exact ih1
      · simp only [internAll, ih2, harr, List.toFinset_append, List.toFinset_cons]
        simp [Finset.union_assoc, Finset.insert_eq]
      · intro hnd
        simp only [internAll]
        apply ih3
        rw [harr]
        simp [List.nodup_append, hnd, (firstIndexOf_eq_none_iff _ _).1 hk]

theorem SAInv_empty : SAInv (UniqueStringArray.ofList []) := by
  intro s
  rfl

/-- Claim C5: interning the same string twice in the same
`UniqueStringArray` returns the same index and leaves the interner
unchanged the second time; interning `n` distinct strings into a fresh
interner yields indices `0..n-1` in first-seen order; and
`serialize_to_array()` returns a list whose length equals the number of
distinct strings interned. -/
theorem c5_interning :
    (∀ (a : UniqueStringArray) (s : String),
        ((a.index_for_string s).2.index_for_string s).1 = (a.index_for_string s).1 ∧
          ((a.index_for_string s).2.index_for_string s).2 = (a.index_for_string s).2) ∧
      (∀ ss : List String, ss.Nodup →
        (internAll (UniqueStringArray.ofList []) ss).1 = List.range ss.length) ∧
      (∀ ss : List String,
        (internAll (UniqueStringArray.ofList []) ss).2.serialize_to_array.length
          = ss.toFinset.card) := by
  refine ⟨?_, ?_, ?_⟩
  · intro a s
    cases hd : dictGet a.stringToIndex s with
    | some i => simp [UniqueStringArray.index_for_string, hd]
    | none =>
      simp [UniqueStringArray.index_for_string, hd, dictGet_dictInsert_self]
  · intro ss hnd
    have h := internAll_fresh_distinct ss (UniqueStringArray.ofList [])
      SAInv_empty hnd (by intro s hs; simp [UniqueStringArray.ofList])
    rw [h.1]
    rw [List.range_eq_range']
    rfl
  · intro ss
    obtain ⟨_, hfin, hnd⟩ := internAll_toFinset ss (UniqueStringArray.ofList []) SAInv_empty
    have hnodup := hnd (by simp [UniqueStringArray.ofList])
    rw [UniqueStringArray.serialize_to_array,
      ← List.toFinset_card_of_nodup hnodup, hfin]
    simp [UniqueStringArray.ofList]

/-- Claim C5 witness: the theorem instantiated at concrete lists, with
a repeated string for the serialization part. -/
theorem c5_interning_witness :
    (internAll (UniqueStringArray.ofList []) ["a", "b"]).1 = List.range 2 ∧
      (internAll (UniqueStringArray.ofList []) ["a", "b", "a"]).2.serialize_to_array.length
        = 2 := by
  constructor
  · have h := c5_interning.2.1 ["a", "b"] (by decide)
    simpa using h
  · have h := c5_interning.2.2 ["a", "b", "a"]
    rw [h]
    decide

/-! ## `get_string` bounds lemmas -/

theorem get?_some_getD (l : List String) (n : Nat) (h : n < l.length) :
    l.get? n = some (l.getD n "") := by
  cases hx : l.get? n with
  | none =>
    rw [List.get?_eq_none] at hx
    omega
  | some v =>
    rw [List.getD_eq_getElem?_getD, ← List.get?_eq_getElem?, hx]
    rfl

/-- Claim C8 counterexample: with the empty-string fallback supplied,
`get_string` still fails (Python's `if els:` is a truthiness test), so it
is not the case that any supplied fallback is returned instead of
failing. -/
theorem c8_counterexample :
    ¬ ((UniqueStringArray.ofList []).get_string 0 (some "") = Except.ok "") := by
  intro h
  exact Except.noConfusion h

/-- Claim C8 (amended): for every `UniqueStringArray` and every index with
`index >= size`, `get_string` with no fallback fails with the not-found
`ValueError`; a supplied *non-empty* fallback string is returned instead of
failing, but the empty-string fallback is falsy and still fails. -/
theorem c8_get_string_out_of_bounds (a : UniqueStringArray) (i : Int)
    (h : (a.array.length : Int) ≤ i) :
    a.get_string i none
        = Except.error ("index " ++ toString i ++ " not in UniqueStringArray") ∧
      (∀ e : String, e ≠ "" →
        a.get_string i (some e) = Except.ok e) ∧
      a.get_string i (some "")
        = Except.error ("index " ++ toString i ++ " not in UniqueStringArray") := by
  have hhi : a.has_index i = false := by
    simp only [UniqueStringArray.has_index, decide_eq_false_iff_not]
    omega
  refine ⟨?_, ?_, ?_⟩
  · simp [UniqueStringArray.get_string, hhi]
  · intro e he
    simp [UniqueStringArray.get_string, hhi, he]
  · simp [UniqueStringArray.get_string, hhi]

/-- Claim C8 witness: the amended theorem at the empty interner and
index 0, with fallbacks `"x"` and `""`. -/
theorem c8_get_string_out_of_bounds_witness :
    (UniqueStringArray.ofList []).get_string 0 none
        = Except.error ("index " ++ toString (0 : Int) ++ " not in UniqueStringArray") ∧
      (UniqueStringArray.ofList []).get_string 0 (some "x") = Except.ok "x" ∧
      (UniqueStringArray.ofList []).get_string 0 (some "")
        = Except.error ("index " ++ toString (0 : Int) ++ " not in UniqueStringArray") := by
  have h := c8_get_string_out_of_bounds (UniqueStringArray.ofList []) 0 (by decide)
  exact ⟨h.1, h.2.1 "x" (by decide), h.2.2⟩

/-- Claim C10: for a `UniqueStringArray` holding `n > 0` strings and an
integer index with `-n <= index < 0`, `has_index` returns true and
`get_string` returns the string stored at position `n + index` (Python
negative indexing) rather than failing; and the bounds check fails exactly
for the indices `>= n`. -/
theorem c10_negative_index (a : UniqueStringArray) (i : Int)
    (hn : 0 < a.array.length) (hlo : -(a.array.length : Int) ≤ i) (hhi : i < 0) :
    a.has_index i = true ∧
      a.get_string i none
        = Except.ok (a.array.getD (i + (a.array.length : Int)).toNat "") ∧
      (∀ j : Int, a.has_index j = false ↔ (a.array.length : Int) ≤ j) := by
  have h1 : a.has_index i = true := by
    simp only [UniqueStringArray.has_index, decide_eq_true_eq]
    omega
  have h2 : ¬ (0 ≤ i) := by omega
  have h3 : 0 ≤ i + (a.array.length : Int) := by omega
  have hlt : (i + (a.array.length : Int)).toNat < a.array.length := by omega
  refine ⟨h1, ?_, ?_⟩
  · obtain ⟨v, hv⟩ : ∃ v, a.array.get? ((i + (a.array.length : Int)).toNat) = some v :=
      ⟨_, get?_some_getD a.array ((i + (a.array.length : Int)).toNat) hlt⟩
    have hgd : a.array.getD ((i + (a.array.length : Int)).toNat) "" = v := by
      rw [List.getD_eq_getElem?_getD, ← List.get?_eq_getElem?, hv]
      rfl
    have hv2 : a.array[(i + (a.array.length : Int)).toNat]? = some v := by
      rw [← List.get?_eq_getElem?]
      exact hv
    rw [hgd]
    simp [UniqueStringArray.get_string, h1, pyGetElem, h2, h3, hv2]
  · intro j
    simp only [UniqueStringArray.has_index, decide_eq_false_iff_not]
    omega

/-- Claim C10 witness: the theorem at a two-string interner and index
`-1`, which resolves to the last stored string. -/
theorem c10_negative_index_witness :
    (UniqueStringArray.ofList ["x", "y"]).has_index (-1) = true ∧
      (UniqueStringArray.ofList ["x", "y"]).get_string (-1) none = Except.ok "y" := by
  have h := c10_negative_index (UniqueStringArray.ofList ["x", "y"]) (-1)
    (by decide) (by decide) (by decide)
  exact ⟨h.1, h.2.1.trans rfl⟩

end ShProfile
